import Mathlib

/-!
Verification development for the niltalk chat relay repository.

We shallowly embed the parts of the program the specification talks about:

* the MongoDB-backed message cache (`GetMessageCache`, in both the variadic
  multi-filter form and the single-filter form present in the sources),
* the chat-history time-window resolution performed by `handleChatHistory`,
* the session-selection logic of the `wrap` auth middleware,
* the Room broadcast fan-out loop (modelled from the spec, since the hub
  package is not among the provided sources).

Times are modelled as integers: seconds since the Unix epoch, in UTC.  The
model has one-second granularity (fractional seconds are not modelled; none
of the code paths under study produce them).  Calendar conversions follow the
proleptic Gregorian calendar used by Go's `time` package.
-/

deriving instance DecidableEq for Except

namespace Niltalk

/-- Days from civil date to days-since-1970-01-01 (proleptic Gregorian), the
same day numbering Go's `time` package uses for UTC instants. -/
def daysFromCivil (y m d : Int) : Int :=
  let y' := if m ≤ 2 then y - 1 else y
  let era := y'.ediv 400
  let yoe := y' - era * 400
  let doy := (153 * (if m > 2 then m - 3 else m + 9) + 2).ediv 5 + d - 1
  let doe := yoe * 365 + yoe.ediv 4 - yoe.ediv 100 + doy
  era * 146097 + doe - 719468

/-- Inverse of `daysFromCivil`: the civil date (year, month, day) of a
days-since-epoch count. -/
def civilFromDays (z : Int) : Int × Int × Int :=
  let z' := z + 719468
  let era := z'.ediv 146097
  let doe := z' - era * 146097
  let yoe := (doe - doe.ediv 1460 + doe.ediv 36524 - doe.ediv 146096).ediv 365
  let y := yoe + era * 400
  let doy := doe - (365 * yoe + yoe.ediv 4 - yoe.ediv 100)
  let mp := (5 * doy + 2).ediv 153
  let d := doy - (153 * mp + 2).ediv 5 + 1
  let m := if mp < 10 then mp + 3 else mp - 9
  (if m ≤ 2 then y + 1 else y, m, d)

/-- Leap-year rule of the Gregorian calendar (as in Go's `time` package). -/
def isLeapYear (y : Int) : Bool :=
  (y.emod 4 == 0 && y.emod 100 != 0) || y.emod 400 == 0

/-- Number of days in a month, used by Go's date validation. -/
def daysInMonth (y m : Int) : Int :=
  if m = 2 then (if isLeapYear y then 29 else 28)
  else if m = 4 ∨ m = 6 ∨ m = 9 ∨ m = 11 then 30 else 31

/-- Numeric value of a decimal digit character. -/
def digitVal (c : Char) : Option Int :=
  if c.isDigit then some ((c.toNat : Int) - 48) else none

/-- Go `time.Parse` with layout `"2006-01-02"` (the handler's `dateFormat`):
requires exactly `YYYY-MM-DD` with a valid month and day, and yields the
parsed date as a days-since-epoch count (the instant is midnight UTC of that
day). -/
def parseDate (s : String) : Option Int :=
  match s.toList with
  | [y1, y2, y3, y4, c1, m1, m2, c2, d1, d2] =>
    if c1 == '-' && c2 == '-' then
      match digitVal y1, digitVal y2, digitVal y3, digitVal y4,
            digitVal m1, digitVal m2, digitVal d1, digitVal d2 with
      | some a, some b, some c, some d, some e, some f, some g, some h =>
        let y := a * 1000 + b * 100 + c * 10 + d
        let mo := e * 10 + f
        let dy := g * 10 + h
        if 1 ≤ mo ∧ mo ≤ 12 ∧ 1 ≤ dy ∧ dy ≤ daysInMonth y mo then
          some (daysFromCivil y mo dy)
        else none
      | _, _, _, _, _, _, _, _ => none
    else none
  | _ => none

/-- Split a character list at every occurrence of `sep`; `n` separators
yield `n + 1` pieces and the empty list yields one empty piece, matching
Go's `strings.Split` for a one-character separator. -/
def splitOnChar (sep : Char) : List Char → List (List Char)
  | [] => [[]]
  | c :: cs =>
    if c == sep then [] :: splitOnChar sep cs
    else
      match splitOnChar sep cs with
      | [] => [[c]]
      | h :: t => (c :: h) :: t

/-- Go `strings.Split(s, sep)` for the one-character separators the handler
uses (`","` between hour ranges, `"-"` inside a range). -/
def goSplit (s : String) (sep : Char) : List String :=
  (splitOnChar sep s.toList).map String.mk

/-- Go `time.Parse` with the handler's layout
`"2006-01-02 15:04:05.999999 -0700"`, applied to `i.Format("2006-01-02") ++
" " ++ component`: since the generated date prefix always parses, only the
component matters.  The layout's `-0700` element makes an explicit numeric
zone offset mandatory, so a bare `HH:MM:SS` component fails to parse.
Returns `(secondsOfDay, zoneOffsetSeconds)` on success.  Go's range checks
on hour, minute and second are included; fractional seconds are not modelled
(one-second granularity). -/
def parseHourComp (s : String) : Option (Int × Int) :=
  match s.toList with
  | [h1, h2, c1, m1, m2, c2, s1, s2, sp, sg, z1, z2, z3, z4] =>
    if c1 == ':' && c2 == ':' && sp == ' ' && (sg == '+' || sg == '-') then
      match digitVal h1, digitVal h2, digitVal m1, digitVal m2,
            digitVal s1, digitVal s2,
            digitVal z1, digitVal z2, digitVal z3, digitVal z4 with
      | some a, some b, some c, some d, some e, some f,
        some g, some h, some i, some j =>
        let hh := a * 10 + b
        let mm := c * 10 + d
        let ss := e * 10 + f
        if hh ≤ 23 ∧ mm ≤ 59 ∧ ss ≤ 59 then
          let off := (g * 10 + h) * 3600 + (i * 10 + j) * 60
          some (hh * 3600 + mm * 60 + ss, if sg == '-' then -off else off)
        else none
      | _, _, _, _, _, _, _, _, _, _ => none
    else none
  | _ => none

/-- The instant of Go's zero `time.Time` (January 1, year 1, 00:00:00 UTC)
in seconds since the Unix epoch; `time.Time.IsZero` compares against it. -/
def goZeroTime : Int := -62135596800

/-- Go `time.Time.IsZero` in the instant model. -/
def isZeroTime (t : Int) : Bool := t == goZeroTime

/-- `store.DateFilter`: one `(Start, End)` window shaping a history query. -/
structure DateFilter where
  Start : Int
  End : Int
deriving DecidableEq, Repr

/-- `store.Message`: one message-cache record.  `time` is the record's `_id`
and sort key; the payload is an opaque blob. -/
structure Message where
  time : Int
  roomID : String
  payload : String
deriving DecidableEq, Repr

/-- A timezone, abstracted to the two capabilities `handleChatHistory` uses:
reading the local wall-clock components of an instant (`t.In(loc)` followed
by `Hour`/`Minute`/`Second`), building an instant from local components
(`time.Date(..., loc)`), and adding one calendar day in the zone
(`AddDate(0, 0, 1)`).  `locUTC` instantiates it with UTC arithmetic; claims
quantifying over timezones quantify over arbitrary instances. -/
structure Location where
  localParts : Int → Int × Int × Int
  mkTime : Int → Int → Int → Int → Int → Int → Int
  addDay : Int → Int

/-- The UTC location: local components are the civil components of the
instant, `time.Date` is civil-date arithmetic, a calendar day is 86400 s. -/
def locUTC : Location where
  localParts t :=
    let sod := t.emod 86400
    (sod.ediv 3600, (sod.emod 3600).ediv 60, sod.emod 60)
  mkTime y m d hh mm ss := daysFromCivil y m d * 86400 + hh * 3600 + mm * 60 + ss
  addDay t := t + 86400

/-- Outcomes of `handleChatHistory` before the message-cache query is
reached.  `panicIndex` models the `strings.Split(hour, "-")[1]` index
out-of-range panic when a component has no dash but its first part parses. -/
inductive HErr where
  | parseFrom
  | parseUntil
  | fromAfterUntil
  | hourParse
  | panicIndex
deriving DecidableEq, Repr

/-- Outcome of the two-step parse of one hour-range (`strings.Split(hour,
"-")`, parse part 0 against day `d`, then part 1).  Mirrors the evaluation
order of `handleChatHistory`: part 1 is only touched when part 0 parsed. -/
inductive RangeOut where
  | rerr
  | rpanic
  | rok (s e : Int)
deriving DecidableEq, Repr

/-- Parse an hour-range string for calendar day `d` (a days-since-epoch
count), as `handleChatHistory` does per day and per range. -/
def rangeParse (d : Int) (hour : String) : RangeOut :=
  let parts := goSplit hour '-'
  match parseHourComp (parts.headD "") with
  | none => .rerr
  | some (tod1, off1) =>
    match parts.get? 1 with
    | none => .rpanic
    | some p2 =>
      match parseHourComp p2 with
      | none => .rerr
      | some (tod2, off2) =>
        .rok (d * 86400 + tod1 - off1) (d * 86400 + tod2 - off2)

/-- Result of processing the hour-range list for one day: a hard error, a
`break dateLoop` carrying the windows collected so far, or normal
continuation to the next day. -/
inductive DayOut where
  | derr (e : HErr)
  | dbrk (fs : List DateFilter)
  | dcont (fs : List DateFilter)
deriving Repr

/-- Inner loop of `handleChatHistory` over the hour ranges of one day `d`:
parse both endpoints (error ends the request), roll an end that precedes its
start forward one day, clamp a future end to `now`, break out of the whole
date loop once a start is in the future, otherwise append the window. -/
def processHours (now d : Int) (ranges : List String) (acc : List DateFilter) :
    DayOut :=
  match ranges with
  | [] => .dcont acc
  | h :: rest =>
    match rangeParse d h with
    | .rerr => .derr .hourParse
    | .rpanic => .derr .panicIndex
    | .rok s e =>
      let e1 := if e < s then e + 86400 else e
      let e2 := if now < e1 then now else e1
      if s > now then .dbrk acc
      else processHours now d rest (acc ++ [⟨s, e2⟩])

/-- The windowless branch of the date loop: build one window for day `d`
from the current day's start (`now` truncated to midnight UTC) and end
(23:59:59 of that UTC day) as observed in the request's timezone, roll the
end a day forward if it does not exceed the start, clamp a future end to
`now`, and signal loop abandonment (`none`) when the start is in the
future. -/
def noHoursFilter (loc : Location) (now nowStartI nowEndI d : Int) :
    Option DateFilter :=
  let c := civilFromDays d
  let sp := loc.localParts nowStartI
  let ep := loc.localParts nowEndI
  let st := loc.mkTime c.1 c.2.1 c.2.2 sp.1 sp.2.1 sp.2.2
  let en := loc.mkTime c.1 c.2.1 c.2.2 ep.1 ep.2.1 ep.2.2
  let en1 := if ¬ st < en then loc.addDay en else en
  let en2 := if now < en1 then now else en1
  if st > now then none else some ⟨st, en2⟩

/-- The `dateLoop` of `handleChatHistory`: iterate days from `i` while
`!i.After(end)`, one day at a time.  The loop variable is always a UTC
midnight instant, so `AddDate(0, 0, 1)` on it is `+86400`.  Structural fuel
replaces the unbounded loop; the caller passes exactly the number of days in
the range, and exhausted fuel coincides with the loop's exit condition. -/
def dateLoop (loc : Location) (now nowStartI nowEndI endI : Int)
    (hoursEmpty : Bool) (ranges : List String) :
    Nat → Int → Except HErr (List DateFilter)
  | 0, _ => .ok []
  | fuel + 1, i =>
    if i > endI then .ok []
    else if hoursEmpty then
      match noHoursFilter loc now nowStartI nowEndI (i.ediv 86400) with
      | none => .ok []
      | some f =>
        match dateLoop loc now nowStartI nowEndI endI hoursEmpty ranges fuel
            (i + 86400) with
        | .error e => .error e
        | .ok rest => .ok (f :: rest)
    else
      match processHours now (i.ediv 86400) ranges [] with
      | .derr e => .error e
      | .dbrk fs => .ok fs
      | .dcont fs =>
        match dateLoop loc now nowStartI nowEndI endI hoursEmpty ranges fuel
            (i + 86400) with
        | .error e => .error e
        | .ok rest => .ok (fs ++ rest)

/-- The time-window resolution phase of `handleChatHistory`: parse `from`
and `until` (layout `2006-01-02`), reject `from` after `until`, iterate the
date loop, and stably sort the collected windows ascending by `Start`.
`Except.ok fs` means the handler goes on to issue the message-cache query
`GetChatHistory(roomID, fs...)`; any `Except.error` means it responds before
any query is issued.  The timezone is passed as a resolved `Location`
(`time.LoadLocation` itself is not modelled; an absent or invalid zone
resolves to UTC). -/
def resolveHistory (fromS untilS hours : String) (loc : Location)
    (now : Int) : Except HErr (List DateFilter) :=
  match parseDate fromS with
  | none => .error .parseFrom
  | some df =>
    match parseDate untilS with
    | none => .error .parseUntil
    | some du =>
      let startI := df * 86400
      let endI := du * 86400
      if startI > endI then .error .fromAfterUntil
      else
        let nowStartI := 86400 * now.ediv 86400
        let nowEndI := nowStartI + 86399
        let ranges := goSplit hours ','
        match dateLoop loc now nowStartI nowEndI endI (hours == "") ranges
            (du - df + 1).toNat startI with
        | .error e => .error e
        | .ok fs =>
          .ok (List.insertionSort (fun a b => a.Start ≤ b.Start) fs)

/-- The per-window bound test the variadic `GetMessageCache` compiles into
BSON: a `$gte` clause is added only when `Start` is nonzero and a `$lte`
clause only when `End` is nonzero; both present bounds are inclusive. -/
def inCond (f : DateFilter) (t : Int) : Bool :=
  (isZeroTime f.Start || decide (f.Start ≤ t)) &&
  (isZeroTime f.End || decide (t ≤ f.End))

/-- A filter survives into the `$or` list exactly when at least one of its
bounds is nonzero (`!date.Start.IsZero() || !date.End.IsZero()`). -/
def activeFilter (f : DateFilter) : Bool :=
  !isZeroTime f.Start || !isZeroTime f.End

/-- The `$or` operand list the variadic `GetMessageCache` builds. -/
def activeFilters (fs : List DateFilter) : List DateFilter :=
  fs.filter activeFilter

/-- Stable descending sort on the `_id` timestamp (`$sort: {_id: -1}`). -/
def sortDescByTime (l : List Message) : List Message :=
  List.insertionSort (fun a b => b.time ≤ a.time) l

/-- Stable ascending sort on the `_id` timestamp (`$sort: {_id: 1}`). -/
def sortAscByTime (l : List Message) : List Message :=
  List.insertionSort (fun a b => a.time ≤ b.time) l

/-- The variadic `GetMessageCache(roomID, limit, dateFilter
...store.DateFilter)`: pipeline `$match: {$and: [{room_id}, {$or:
filters}]}`, `$sort: {_id: -1}`, then `$limit` when `limit > 0`, with no
further sort stage.  MongoDB rejects an empty `$or` operand list
(`BadValue`), so an empty or all-zero filter list makes the aggregation
fail; the collection is modelled as the list of its records. -/
def getMessageCacheVariadic (coll : List Message) (roomID : String)
    (limit : Int) (fs : List DateFilter) : Except String (List Message) :=
  let conds := activeFilters fs
  if conds.isEmpty then .error "$or/$and/$nor must be a nonempty array"
  else
    let matched := coll.filter
      (fun m => m.roomID == roomID && conds.any (fun f => inCond f m.time))
    let sorted := sortDescByTime matched
    .ok (if limit > 0 then sorted.take limit.toNat else sorted)

/-- The record-matching predicate of the single-filter `GetMessageCache` in
`store/mongodb/mongodb.go`: the `_id` range clause exists only when at least
one bound of the single filter is nonzero. -/
def singleMatch (roomID : String) (f : DateFilter) (m : Message) : Bool :=
  m.roomID == roomID && (if activeFilter f then inCond f m.time else true)

/-- The single-filter `GetMessageCache(roomID, limit, dateFilter
store.DateFilter)` of `store/mongodb/mongodb.go`: `$match`, `$sort` desc,
`$limit` when `limit > 0`, and a final `$sort: {_id: 1}` re-sorting the
selection ascending before it is returned. -/
def getMessageCacheSingle (coll : List Message) (roomID : String)
    (limit : Int) (f : DateFilter) : List Message :=
  let matched := coll.filter (singleMatch roomID f)
  let descended := sortDescByTime matched
  let limited := if limit > 0 then descended.take limit.toNat else descended
  sortAscByTime limited

/-- Go `ck != nil && ck.Value != ""` for the session cookie. -/
def cookieNonEmpty : Option String → Bool
  | some v => v != ""
  | none => false

/-- Go `ck == nil || ck.Value == ""` (short-circuit: no dereference when the
cookie is nil). -/
def cookieNilOrEmpty : Option String → Bool
  | some v => v == ""
  | none => true

/-- Session selection of the `wrap` auth middleware, translated branch for
branch: `ck` is the cookie (`none` models a nil `*http.Cookie`), `qsid` the
`session_id` query parameter, `hsid` the `session_id` header.  `Except.ok
(some s)` means `GetSession(s, roomID)` is consulted, `Except.ok none` means
the request proceeds unauthenticated, and `Except.error ()` is the nil
pointer dereference of `ck.Value` when the final `else` branch runs with `ck
== nil`.  Note the second branch repeats the first branch's condition (it
tests the query parameter again instead of the header), so it never runs. -/
def wrapAuthSession (ck : Option String) (qsid hsid : String) :
    Except Unit (Option String) :=
  if cookieNonEmpty ck || qsid != "" || hsid != "" then
    if cookieNilOrEmpty ck && qsid != "" then Except.ok (some qsid)
    else if cookieNilOrEmpty ck && qsid != "" then Except.ok (some hsid)
    else
      match ck with
      | none => Except.error ()
      | some v => Except.ok (some v)
  else Except.ok none

/-- Modelled from the spec: one inbound frame handled by the Room broadcast
loop — a sender and an opaque payload.  The hub package
(`internal/hub`, the Room/Peer broadcast core) is not among the provided
sources, so the loop is modelled from §4.2 of the specification. -/
structure BEvent where
  sender : String
  payload : String
deriving DecidableEq, Repr

/-- Modelled from the spec: delivery of one frame by the broadcast loop —
the payload is appended to the outbound queue of every currently registered
peer other than the sender (echo suppression, §4.2), in loop order. -/
def broadcastDeliver (peers : List String) (queues : String → List String)
    (e : BEvent) : String → List String :=
  fun p => if p ∈ peers ∧ p ≠ e.sender then queues p ++ [e.payload]
  else queues p

/-- Modelled from the spec: the broadcast loop consuming its inbound frames
one at a time, in the order received (§4.2: this order defines the total
order all peers observe).  Peers here are registered for the whole run and
none is dropped (every peer survives to the end). -/
def runBroadcast (peers : List String) (queues : String → List String) :
    List BEvent → String → List String
  | [] => queues
  | e :: es => runBroadcast peers (broadcastDeliver peers queues e) es

/-! ## Helper lemmas -/

instance : IsTotal Message (fun a b => a.time ≤ b.time) :=
  ⟨fun a b => Int.le_total a.time b.time⟩

instance : IsTrans Message (fun a b => a.time ≤ b.time) :=
  ⟨fun _ _ _ h1 h2 => le_trans h1 h2⟩

instance : IsTotal Message (fun a b => b.time ≤ a.time) :=
  ⟨fun a b => Int.le_total b.time a.time⟩

instance : IsTrans Message (fun a b => b.time ≤ a.time) :=
  ⟨fun _ _ _ h1 h2 => le_trans h2 h1⟩

theorem sortAscByTime_perm (l : List Message) : (sortAscByTime l).Perm l :=
  List.perm_insertionSort _ l

theorem sortDescByTime_perm (l : List Message) : (sortDescByTime l).Perm l :=
  List.perm_insertionSort _ l

theorem sortAscByTime_sorted (l : List Message) :
    List.Sorted (fun a b : Message => a.time ≤ b.time) (sortAscByTime l) :=
  List.sorted_insertionSort _ l

theorem sortDescByTime_sorted (l : List Message) :
    List.Sorted (fun a b : Message => b.time ≤ a.time) (sortDescByTime l) :=
  List.sorted_insertionSort _ l

theorem singleMatch_zero (room : String) :
    singleMatch room ⟨goZeroTime, goZeroTime⟩ = fun m => m.roomID == room := by
  funext m
  simp [singleMatch, activeFilter, isZeroTime]

theorem inCond_iff (f : DateFilter) (t : Int) :
    inCond f t = true ↔
      (f.Start = goZeroTime ∨ f.Start ≤ t) ∧ (f.End = goZeroTime ∨ t ≤ f.End) := by
  simp [inCond, isZeroTime]

theorem activeFilter_iff (f : DateFilter) :
    activeFilter f = true ↔ (f.Start ≠ goZeroTime ∨ f.End ≠ goZeroTime) := by
  simp [activeFilter, isZeroTime]

theorem clamp_le (now x : Int) : (if now < x then now else x) ≤ now := by
  split
  · exact le_refl now
  · exact le_of_not_lt (by assumption)

/-- Every window in the list ends no later than `now` and also starts no
later than `now`. -/
def windowsOk (now : Int) (fs : List DateFilter) : Prop :=
  ∀ f ∈ fs, f.Start ≤ now ∧ f.End ≤ now

/-- The windows carried by a day outcome satisfy `windowsOk`. -/
def dayOutOk (now : Int) : DayOut → Prop
  | .derr _ => True
  | .dbrk fs => windowsOk now fs
  | .dcont fs => windowsOk now fs

theorem noHoursFilter_le_now (loc : Location) (now a b d : Int) (f : DateFilter)
    (h : noHoursFilter loc now a b d = some f) : f.Start ≤ now ∧ f.End ≤ now := by
  simp only [noHoursFilter] at h
  split at h
  · exact absurd h (by simp)
  · rename_i hst
    rw [Option.some_inj] at h
    subst h
    exact ⟨le_of_not_lt hst, clamp_le _ _⟩

theorem processHours_ok (now d : Int) (ranges : List String) :
    ∀ acc : List DateFilter, windowsOk now acc →
      dayOutOk now (processHours now d ranges acc) := by
  induction ranges with
  | nil =>
    intro acc hacc
    exact hacc
  | cons hd rest ih =>
    intro acc hacc
    simp only [processHours]
    split
    · trivial
    · trivial
    · rename_i s e heq
      split
      · exact hacc
      · rename_i hfut
        apply ih
        intro g hg
        rcases List.mem_append.mp hg with hg | hg
        · exact hacc g hg
        · rw [List.mem_singleton] at hg
          subst hg
          exact ⟨le_of_not_lt hfut, clamp_le _ _⟩

/-- The windows carried by a loop outcome satisfy `windowsOk` (errors carry
no windows). -/
def exceptWindowsOk (now : Int) : Except HErr (List DateFilter) → Prop
  | .error _ => True
  | .ok fs => windowsOk now fs

theorem dateLoop_ok (loc : Location) (now a b endI : Int) (he : Bool)
    (ranges : List String) :
    ∀ (fuel : Nat) (i : Int),
      exceptWindowsOk now (dateLoop loc now a b endI he ranges fuel i) := by
  intro fuel
  induction fuel with
  | zero =>
    intro i f hf
    exact absurd hf (by simp)
  | succ n ih =>
    intro i
    simp only [dateLoop]
    split
    · intro f hf
      exact absurd hf (by simp)
    · split
      · rcases hnh : noHoursFilter loc now a b (i.ediv 86400) with _ | f0
        · intro f hf
          exact absurd hf (by simp)
        · rcases hrest : dateLoop loc now a b endI he ranges n (i + 86400) with e | rest
          · trivial
          · intro f hf
            rcases List.mem_cons.mp hf with hf | hf
            · subst hf
              exact noHoursFilter_le_now loc now a b _ _ hnh
            · have hihr := ih (i + 86400)
              rw [hrest] at hihr
              exact hihr f hf
      · have hph := processHours_ok now (i.ediv 86400) ranges []
          (fun f hf => absurd hf (by simp))
        rcases hout : processHours now (i.ediv 86400) ranges [] with e | fs | fs
        · trivial
        · rw [hout] at hph
          exact hph
        · rw [hout] at hph
          rcases hrest : dateLoop loc now a b endI he ranges n (i + 86400) with e | rest
          · trivial
          · intro f hf
            rcases List.mem_append.mp hf with hf | hf
            · exact hph f hf
            · have hihr := ih (i + 86400)
              rw [hrest] at hihr
              exact hihr f hf

theorem resolveHistory_ok (fromS untilS hours : String) (loc : Location)
    (now : Int) :
    exceptWindowsOk now (resolveHistory fromS untilS hours loc now) := by
  simp only [resolveHistory]
  split
  · trivial
  · rename_i odf df hdf
    split
    · trivial
    · rename_i odu du hdu
      split
      · trivial
      · rename_i hle
        split
        · trivial
        · rename_i ores fs0 hfs0
          intro f hf
          rw [List.mem_insertionSort] at hf
          have hdl := dateLoop_ok loc now (86400 * now.ediv 86400)
            (86400 * now.ediv 86400 + 86399) (du * 86400) (hours == "")
            (goSplit hours ',') (du - df + 1).toNat (df * 86400)
          rw [hfs0] at hdl
          exact hdl f hf

theorem runBroadcast_queues (peers : List String) :
    ∀ (events : List BEvent) (queues : String → List String) (p : String),
      p ∈ peers →
      runBroadcast peers queues events p =
        queues p ++ (events.filter (fun e => e.sender != p)).map BEvent.payload := by
  intro events
  induction events with
  | nil =>
    intro q p hp
    simp [runBroadcast]
  | cons e es ih =>
    intro q p hp
    simp only [runBroadcast]
    rw [ih _ p hp]
    by_cases hs : e.sender = p
    · have hd : broadcastDeliver peers q e p = q p := by
        simp [broadcastDeliver, hs]
      rw [hd]
      simp [List.filter_cons, hs]
    · have hd : broadcastDeliver peers q e p = q p ++ [e.payload] := by
        simp only [broadcastDeliver]
        rw [if_pos ⟨hp, fun hpe => hs hpe.symm⟩]
      rw [hd]
      simp only [List.filter_cons, bne_iff_ne, ne_eq, hs, not_false_eq_true,
        if_true]
      simp [List.append_assoc]

/-! ## Claim C1 -/

/-- Claim C1, counterexample: calling the variadic `GetMessageCache` with
`limit = 0` and an empty list of date filters does not return all records of
the room — the empty `$or` operand list makes the aggregation fail with a
MongoDB error, so the claim "returns all records belonging to that room"
fails at this input. -/
theorem c1_counterexample :
    getMessageCacheVariadic [⟨1, "r", "a"⟩] "r" 0 [] =
      Except.error "$or/$and/$nor must be a nonempty array" ∧
    getMessageCacheVariadic [⟨1, "r", "a"⟩] "r" 0 [] ≠
      Except.ok [⟨1, "r", "a"⟩] := by
  decide

/-- Claim C1, amended: for the single-filter `GetMessageCache` of
`store/mongodb/mongodb.go`, a query with `limit = 0` and a zero-valued
`DateFilter` (no time restriction) returns exactly the records belonging to
the room — each exactly once (the result is a permutation of the room's
records) — sorted in ascending timestamp order.  The variadic version
instead rejects an empty filter list (see the counterexample). -/
theorem c1_amended_single_query_all_ascending (coll : List Message)
    (room : String) :
    (getMessageCacheSingle coll room 0 ⟨goZeroTime, goZeroTime⟩).Perm
      (coll.filter (fun m => m.roomID == room)) ∧
    List.Sorted (fun a b : Message => a.time ≤ b.time)
      (getMessageCacheSingle coll room 0 ⟨goZeroTime, goZeroTime⟩) := by
  constructor
  · unfold getMessageCacheSingle
    rw [singleMatch_zero]
    simp only [show ¬ ((0:Int) > 0) by decide, if_false, ite_false]
    exact (sortAscByTime_perm _).trans (sortDescByTime_perm _)
  · exact sortAscByTime_sorted _

/-! ## Claim C2 -/

/-- Claim C2, counterexample: the variadic `GetMessageCache` with
`limit = 2` selects the most recent records but hands them back still in
descending order — its pipeline has no final ascending `$sort` — so the
claim that the caller receives them "re-sorted in ascending chronological
order" fails at this input. -/
theorem c2_counterexample :
    getMessageCacheVariadic [⟨1, "r", "a"⟩, ⟨2, "r", "b"⟩] "r" 2 [⟨1, 2⟩] =
      Except.ok [⟨2, "r", "b"⟩, ⟨1, "r", "a"⟩] ∧
    ¬ List.Sorted (fun a b : Message => a.time ≤ b.time)
      ([⟨2, "r", "b"⟩, ⟨1, "r", "a"⟩] : List Message) := by
  refine ⟨by decide, ?_⟩
  decide

/-- Claim C2, amended: the single-filter `GetMessageCache` of
`store/mongodb/mongodb.go` with `limit > 0` returns the last `limit`
matching records in ascending order: the result is sorted ascending, it is
a permutation of the first `limit` entries of the descending-sorted match
list, and every matching record left out is no newer than every returned
record.  The variadic version selects the same records but returns them in
descending order (see the counterexample). -/
theorem c2_amended_single_query_last_n (coll : List Message) (room : String)
    (limit : Int) (f : DateFilter) (h : 0 < limit) :
    List.Sorted (fun a b : Message => a.time ≤ b.time)
      (getMessageCacheSingle coll room limit f) ∧
    (getMessageCacheSingle coll room limit f).Perm
      ((sortDescByTime (coll.filter (singleMatch room f))).take limit.toNat) ∧
    ∀ m ∈ coll.filter (singleMatch room f),
      m ∉ getMessageCacheSingle coll room limit f →
      ∀ r ∈ getMessageCacheSingle coll room limit f, m.time ≤ r.time := by
  have hres : getMessageCacheSingle coll room limit f =
      sortAscByTime
        ((sortDescByTime (coll.filter (singleMatch room f))).take limit.toNat) := by
    simp only [getMessageCacheSingle, gt_iff_lt, if_pos h]
  refine ⟨hres ▸ sortAscByTime_sorted _, hres ▸ sortAscByTime_perm _, ?_⟩
  intro m hm hnot r hr
  rw [hres] at hnot hr
  set desc := sortDescByTime (coll.filter (singleMatch room f)) with hdesc
  have hmdesc : m ∈ desc := ((sortDescByTime_perm _).mem_iff).mpr hm
  have hnot' : m ∉ desc.take limit.toNat := fun hmem =>
    hnot (((sortAscByTime_perm _).mem_iff).mpr hmem)
  have hr' : r ∈ desc.take limit.toNat := ((sortAscByTime_perm _).mem_iff).mp hr
  have hsplit : desc = desc.take limit.toNat ++ desc.drop limit.toNat :=
    (List.take_append_drop _ _).symm
  have hsorted : List.Pairwise (fun a b : Message => b.time ≤ a.time)
      (desc.take limit.toNat ++ desc.drop limit.toNat) := by
    rw [← hsplit]
    exact sortDescByTime_sorted _
  have hmdrop : m ∈ desc.drop limit.toNat := by
    rcases List.mem_append.mp (hsplit ▸ hmdesc) with h1 | h2
    · exact absurd h1 hnot'
    · exact h2
  exact (List.pairwise_append.mp hsorted).2.2 r hr' m hmdrop

/-- Claim C2, witness: a concrete three-record cache queried with
`limit = 2` through the single-filter implementation. -/
theorem c2_witness :
    (0:Int) < 2 ∧
    (List.Sorted (fun a b : Message => a.time ≤ b.time)
      (getMessageCacheSingle [⟨1, "r", "a"⟩, ⟨2, "r", "b"⟩, ⟨3, "r", "c"⟩]
        "r" 2 ⟨goZeroTime, goZeroTime⟩) ∧
    (getMessageCacheSingle [⟨1, "r", "a"⟩, ⟨2, "r", "b"⟩, ⟨3, "r", "c"⟩]
        "r" 2 ⟨goZeroTime, goZeroTime⟩).Perm
      ((sortDescByTime
        (List.filter (singleMatch "r" ⟨goZeroTime, goZeroTime⟩)
          [⟨1, "r", "a"⟩, ⟨2, "r", "b"⟩, ⟨3, "r", "c"⟩])).take (2:Int).toNat) ∧
    ∀ m ∈ List.filter (singleMatch "r" ⟨goZeroTime, goZeroTime⟩)
        [⟨1, "r", "a"⟩, ⟨2, "r", "b"⟩, ⟨3, "r", "c"⟩],
      m ∉ getMessageCacheSingle [⟨1, "r", "a"⟩, ⟨2, "r", "b"⟩, ⟨3, "r", "c"⟩]
        "r" 2 ⟨goZeroTime, goZeroTime⟩ →
      ∀ r ∈ getMessageCacheSingle [⟨1, "r", "a"⟩, ⟨2, "r", "b"⟩, ⟨3, "r", "c"⟩]
        "r" 2 ⟨goZeroTime, goZeroTime⟩, m.time ≤ r.time) :=
  ⟨by decide,
    c2_amended_single_query_last_n
      [⟨1, "r", "a"⟩, ⟨2, "r", "b"⟩, ⟨3, "r", "c"⟩] "r" 2
      ⟨goZeroTime, goZeroTime⟩ (by decide)⟩

/-! ## Claim C3 -/

/-- Claim C3, confirmed: with `from = 2023-01-01`, `until = 2023-01-03`, no
hours parameter, timezone UTC and "now" = 2023-01-02T10:00:00Z, the history
resolver produces a full-day window for January 1 (00:00:00 to 23:59:59), a
window for January 2 whose end is clamped to 10:00:00, and no window for
January 3 — iteration stops because that day's start is in the future. -/
theorem c3_resolver_windows :
    resolveHistory "2023-01-01" "2023-01-03" "" locUTC
        (locUTC.mkTime 2023 1 2 10 0 0) =
      Except.ok [⟨locUTC.mkTime 2023 1 1 0 0 0, locUTC.mkTime 2023 1 1 23 59 59⟩,
                 ⟨locUTC.mkTime 2023 1 2 0 0 0, locUTC.mkTime 2023 1 2 10 0 0⟩] := by
  decide

/-! ## Claim C4 -/

/-- Claim C4, counterexample: the hours parameter `09:00:00-08:00:00` of the
claim never yields any window — the parse layout
`2006-01-02 15:04:05.999999 -0700` requires an explicit numeric zone offset,
so the bare component `09:00:00` fails to parse and the whole request is
rejected with a validation error. -/
theorem c4_counterexample :
    resolveHistory "2023-01-01" "2023-01-02" "09:00:00-08:00:00" locUTC
        (locUTC.mkTime 2023 1 5 12 0 0) = Except.error HErr.hourParse ∧
    parseHourComp "09:00:00" = none := by
  exact ⟨by decide, by decide⟩

/-- Claim C4, amended: hour-range components must carry an explicit numeric
zone offset to parse; with the parseable form
`09:00:00 +0000-08:00:00 +0000` (end before start) every day `d` visited by
the resolver yields a window starting at 09:00:00 on day `d` and ending at
08:00:00 on the next calendar day, i.e. an end preceding its start spans
into the next day (shown here on a two-day range wholly in the past, so the
now-clamp does not fire). -/
theorem c4_amended_offset_hours_span_next_day :
    resolveHistory "2023-01-01" "2023-01-02" "09:00:00 +0000-08:00:00 +0000"
        locUTC (locUTC.mkTime 2023 1 5 12 0 0) =
      Except.ok [⟨locUTC.mkTime 2023 1 1 9 0 0, locUTC.mkTime 2023 1 2 8 0 0⟩,
                 ⟨locUTC.mkTime 2023 1 2 9 0 0, locUTC.mkTime 2023 1 3 8 0 0⟩] := by
  decide

/-! ## Claim C5 -/

/-- Claim C5, counterexample: a window with both bounds omitted (zero)
should, per the claim, mean "unbounded on both sides" and match every record
of the room; the variadic `GetMessageCache` instead drops such a window from
the `$or` list and, it being the only window, fails with a MongoDB error —
the record inside the window is not returned. -/
theorem c5_counterexample :
    getMessageCacheVariadic [⟨5, "r", "x"⟩] "r" 0 [⟨goZeroTime, goZeroTime⟩] =
      Except.error "$or/$and/$nor must be a nonempty array" ∧
    getMessageCacheVariadic [⟨5, "r", "x"⟩] "r" 0 [⟨goZeroTime, goZeroTime⟩] ≠
      Except.ok [⟨5, "r", "x"⟩] := by
  decide

/-- Claim C5, amended: provided at least one supplied window has a nonzero
bound, the variadic `GetMessageCache` with `limit = 0` succeeds and returns
a record exactly when it belongs to the queried room and falls inside at
least one supplied window that has a nonzero bound; within a window the
bounds are conjoined, an omitted (zero) bound is unbounded on that side, and
both bounds are inclusive (`≤`).  Windows with both bounds omitted are
discarded rather than treated as match-all, and if no window survives the
query fails instead of applying no restriction (see the counterexample). -/
theorem c5_amended_membership (coll : List Message) (room : String)
    (fs : List DateFilter) (h : activeFilters fs ≠ []) :
    ∃ l, getMessageCacheVariadic coll room 0 fs = Except.ok l ∧
      ∀ m : Message, m ∈ l ↔ m ∈ coll ∧ m.roomID = room ∧ ∃ f ∈ fs,
        (f.Start ≠ goZeroTime ∨ f.End ≠ goZeroTime) ∧
        (f.Start = goZeroTime ∨ f.Start ≤ m.time) ∧
        (f.End = goZeroTime ∨ m.time ≤ f.End) := by
  have hne : (activeFilters fs).isEmpty = false := by
    simpa [List.isEmpty_iff] using h
  refine ⟨sortDescByTime (coll.filter
    (fun m => m.roomID == room &&
      (activeFilters fs).any (fun f => inCond f m.time))), ?_, ?_⟩
  · simp only [getMessageCacheVariadic, hne, Bool.false_eq_true, if_false,
      show ¬ ((0:Int) > 0) by decide, ite_false]
  · intro m
    rw [(sortDescByTime_perm _).mem_iff, List.mem_filter]
    simp only [Bool.and_eq_true, beq_iff_eq, List.any_eq_true, activeFilters,
      List.mem_filter, activeFilter_iff, inCond_iff]
    constructor
    · rintro ⟨hc, hr, f, ⟨hf, ha⟩, hin⟩
      exact ⟨hc, hr, f, hf, ha, hin⟩
    · rintro ⟨hc, hr, f, hf, ha, hin⟩
      exact ⟨hc, hr, f, ⟨hf, ha⟩, hin⟩

/-- Claim C5, witness: a one-record cache queried with one bounded window
containing the record. -/
theorem c5_witness :
    activeFilters [⟨1, 10⟩] ≠ [] ∧
    (∃ l, getMessageCacheVariadic [⟨5, "r", "x"⟩] "r" 0 [⟨1, 10⟩] =
        Except.ok l ∧
      ∀ m : Message, m ∈ l ↔ m ∈ ([⟨5, "r", "x"⟩] : List Message) ∧
        m.roomID = "r" ∧ ∃ f ∈ ([⟨1, 10⟩] : List DateFilter),
        (f.Start ≠ goZeroTime ∨ f.End ≠ goZeroTime) ∧
        (f.Start = goZeroTime ∨ f.Start ≤ m.time) ∧
        (f.End = goZeroTime ∨ m.time ≤ f.End)) :=
  ⟨by decide, c5_amended_membership [⟨5, "r", "x"⟩] "r" [⟨1, 10⟩] (by decide)⟩

/-! ## Claim C6 -/

/-- Claim C6, confirmed: for every input (`from`, `until`, `hours`,
timezone) and every current instant `now`, every `DateFilter` window the
history resolver constructs and hands to the message-cache query has both
its start and its end not after `now` — a constructed window never includes
future time.  The timezone is an arbitrary `Location`, so the property holds
for any timezone behaviour. -/
theorem c6_no_future_windows (fromS untilS hours : String) (loc : Location)
    (now : Int) (fs : List DateFilter)
    (h : resolveHistory fromS untilS hours loc now = Except.ok fs) :
    ∀ f ∈ fs, f.Start ≤ now ∧ f.End ≤ now := by
  have hok := resolveHistory_ok fromS untilS hours loc now
  rw [h] at hok
  exact hok

/-- Claim C6, witness: the concrete resolver run of claim C3, whose two
windows both end at or before "now" = 2023-01-02T10:00:00Z. -/
theorem c6_witness :
    resolveHistory "2023-01-01" "2023-01-03" "" locUTC 1672653600 =
      Except.ok [⟨1672531200, 1672617599⟩, ⟨1672617600, 1672653600⟩] ∧
    ∀ f ∈ ([⟨1672531200, 1672617599⟩, ⟨1672617600, 1672653600⟩] :
        List DateFilter), f.Start ≤ 1672653600 ∧ f.End ≤ 1672653600 :=
  ⟨by decide,
    c6_no_future_windows "2023-01-01" "2023-01-03" "" locUTC 1672653600
      [⟨1672531200, 1672617599⟩, ⟨1672617600, 1672653600⟩] (by decide)⟩

/-! ## Claim C7 -/

/-- Claim C7, counterexample: a request whose hours list contains the
unparseable component `garbage` after a range whose start lies in the
future is not rejected — the date loop breaks on the future start before
ever parsing the bad component, and the message-cache query is issued
(here with no windows at all), contradicting "no message-cache query is
issued". -/
theorem c7_counterexample :
    resolveHistory "2023-01-02" "2023-01-02"
        "12:00:00 +0000-13:00:00 +0000,garbage" locUTC
        (locUTC.mkTime 2023 1 2 0 0 0) = Except.ok [] ∧
    rangeParse 19359 "garbage" = RangeOut.rerr := by
  exact ⟨by decide, by decide⟩

/-- Claim C7, amended: a parse failure on an hour-range component aborts the
whole request with a validation error and no query only when the failing
component is reached before iteration stops; in particular, whenever the
first hour range of the list is malformed (and the date range is valid),
the request fails with the hour-parse validation error and no message-cache
query is issued.  A malformed component occurring after a range whose
window start is in the future is never parsed and the query is still issued
with the windows collected so far (see the counterexample). -/
theorem c7_amended_reached_parse_failure (fromS untilS hours : String)
    (loc : Location) (now : Int) (df du : Int) (r1 : String) (rs : List String)
    (hf : parseDate fromS = some df) (hu : parseDate untilS = some du)
    (hle : df ≤ du) (hne : (hours == "") = false)
    (hsplit : goSplit hours ',' = r1 :: rs)
    (hbad : rangeParse df r1 = RangeOut.rerr) :
    resolveHistory fromS untilS hours loc now = Except.error HErr.hourParse := by
  have hse : ¬ df * 86400 > du * 86400 := by
    simp only [gt_iff_lt, not_lt]
    exact mul_le_mul_of_nonneg_right hle (by norm_num)
  obtain ⟨n, hn⟩ : ∃ n, (du - df + 1).toNat = n + 1 :=
    ⟨(du - df).toNat, by omega⟩
  have hdiv : (df * 86400).ediv 86400 = df := Int.mul_ediv_cancel df (by norm_num)
  simp only [resolveHistory, hf, hu, if_neg hse, hn, hne, hsplit, dateLoop,
    Bool.false_eq_true, if_false, hdiv, processHours, hbad]

/-- Claim C7, witness: a request whose only hour range is the malformed
string `garbage` is rejected with the hour-parse validation error. -/
theorem c7_witness :
    parseDate "2023-01-01" = some 19358 ∧
    goSplit "garbage" ',' = ["garbage"] ∧
    rangeParse 19358 "garbage" = RangeOut.rerr ∧
    resolveHistory "2023-01-01" "2023-01-01" "garbage" locUTC 0 =
      Except.error HErr.hourParse :=
  ⟨by decide, by decide, by decide,
    c7_amended_reached_parse_failure "2023-01-01" "2023-01-01" "garbage"
      locUTC 0 19358 19358 "garbage" [] (by decide) (by decide) (by decide)
      (by decide) (by decide) (by decide)⟩

/-! ## Claim C8 -/

/-- Claim C8, confirmed against the spec model of the broadcast loop: for
every sequence of frames broadcast into one Room and every peer registered
throughout (surviving to the end), the peer's observed queue is exactly the
loop-received order restricted to messages it did not send (echo
suppression), and it is a subsequence of the full loop-received payload
order.  Since every surviving peer's observation is the same restriction of
one master order, any two surviving peers observe the common messages in
the same relative order. -/
theorem c8_broadcast_order (peers : List String) (events : List BEvent)
    (p : String) (hp : p ∈ peers) :
    runBroadcast peers (fun _ => []) events p =
      (events.filter (fun e => e.sender != p)).map BEvent.payload ∧
    (runBroadcast peers (fun _ => []) events p).Sublist
      (events.map BEvent.payload) := by
  have h1 := runBroadcast_queues peers events (fun _ => []) p hp
  simp only [List.nil_append] at h1
  refine ⟨h1, ?_⟩
  rw [h1]
  exact (List.filter_sublist _).map _

/-- Claim C8, witness: two peers, two frames; peer `a` observes only peer
`b`'s message, in broadcast order. -/
theorem c8_witness :
    ("a" : String) ∈ ["a", "b"] ∧
    (runBroadcast ["a", "b"] (fun _ => []) [⟨"a", "m1"⟩, ⟨"b", "m2"⟩] "a" =
      (([⟨"a", "m1"⟩, ⟨"b", "m2"⟩] : List BEvent).filter
        (fun e => e.sender != "a")).map BEvent.payload ∧
    (runBroadcast ["a", "b"] (fun _ => []) [⟨"a", "m1"⟩, ⟨"b", "m2"⟩]
        "a").Sublist
      (([⟨"a", "m1"⟩, ⟨"b", "m2"⟩] : List BEvent).map BEvent.payload)) :=
  ⟨by decide,
    c8_broadcast_order ["a", "b"] [⟨"a", "m1"⟩, ⟨"b", "m2"⟩] "a" (by decide)⟩

/-! ## Claim C9 -/

/-- Claim C9, confirmed: a request to an authenticated route carrying a
`session_id` only in the header — no session cookie and no `session_id`
query parameter — drives the `wrap` middleware into its final branch, which
evaluates `ck.Value` with `ck == nil`: a nil pointer dereference.  The
header-supplied session is not used (the result is not a session lookup of
the header value) and the handler crashes instead of looking up the
session. -/
theorem c9_nil_cookie_dereference :
    wrapAuthSession none "" "somesession" = Except.error () ∧
    wrapAuthSession none "" "somesession" ≠ Except.ok (some "somesession") := by
  decide

/-! ## Claim C10 -/

/-- Claim C10, confirmed: whenever both `from` and `until` parse as
`YYYY-MM-DD` dates and `from` is strictly later than `until`, the handler
rejects the request with the from-after-until validation error before the
date loop runs — no window is constructed and no message-cache query is
issued (the resolver never reaches its `Except.ok` branch). -/
theorem c10_from_after_until_rejected (fromS untilS hours : String)
    (loc : Location) (now df du : Int)
    (hf : parseDate fromS = some df) (hu : parseDate untilS = some du)
    (hlt : du < df) :
    resolveHistory fromS untilS hours loc now =
      Except.error HErr.fromAfterUntil := by
  have hgt : df * 86400 > du * 86400 :=
    mul_lt_mul_of_pos_right hlt (by norm_num)
  simp only [resolveHistory, hf, hu, if_pos hgt]

/-- Claim C10, witness: `from = 2023-01-02` after `until = 2023-01-01` is
rejected with the from-after-until validation error. -/
theorem c10_witness :
    parseDate "2023-01-02" = some 19359 ∧
    parseDate "2023-01-01" = some 19358 ∧
    (19358 : Int) < 19359 ∧
    resolveHistory "2023-01-02" "2023-01-01" "" locUTC 0 =
      Except.error HErr.fromAfterUntil :=
  ⟨by decide, by decide, by decide,
    c10_from_after_until_rejected "2023-01-02" "2023-01-01" "" locUTC 0
      19359 19358 (by decide) (by decide) (by decide)⟩

end Niltalk
